import Mathlib

/-!
Chat component (`src/components/chat.js`): streaming merge and code extraction.

A shallow embedding of the logic of the chat component:

* the code extractor (`handleCodePreview`, `FormattedMessage.parseCode`),
* code execution and function dispatch (`executeCode`, `handleFunctionCall`),
* the streaming loop of `handleSubmit`,
* `clearChat` and the persistence effect.

JavaScript strings are lists of characters (`Text`); every marker and pattern the component
looks for is ASCII, so characters and UTF-16 code units agree on them.  Values that come out of
`JSON.parse` or out of executed code are `JsVal`.  Everything the JavaScript
engine provides and the component only calls (`JSON.parse`, `JSON.stringify`,
string conversion, running a compiled function body) is a field of `Runtime`;
theorems about the component hold for every runtime.

React state is passed explicitly.  The file is a client component (`"use client"`) of a
React 18 application: `setMessages(updater)` queues the updater, and React runs it when it
next renders, after the synchronous statements that follow the call, so the updater reads the
locals of `handleSubmit` as they are then.  The updater of the content branch reads
`accumulatedResponse`, which only grows, and each later content updater overwrites what an
earlier one wrote, so it is applied at the call: the transcript at the end of the stretch is
the same.  The updater of the function branch reads `functionCallInProgress`, which the
statement after the call sets to `null`.
-/

namespace Chat

/-- A JavaScript string, as the list of its characters. -/
abbrev Text := List Char

/-! ## JavaScript values -/

/-- A JavaScript value as `JSON.parse` produces it, plus `undefined`. Numbers are integers. -/
inductive JsVal where
  | undefined
  | null
  | bool (b : Bool)
  | num (n : Int)
  | str (s : Text)
  | arr (xs : List JsVal)
  | obj (fields : List (Text × JsVal))

mutual
/-- Structural equality test on values. -/
def JsVal.beq : JsVal → JsVal → Bool
  | .undefined, .undefined => true
  | .null, .null => true
  | .bool a, .bool b => a == b
  | .num a, .num b => a == b
  | .str a, .str b => a == b
  | .arr xs, .arr ys => JsVal.beqList xs ys
  | .obj xs, .obj ys => JsVal.beqFields xs ys
  | _, _ => false
/-- Structural equality test on lists of values. -/
def JsVal.beqList : List JsVal → List JsVal → Bool
  | [], [] => true
  | x :: xs, y :: ys => JsVal.beq x y && JsVal.beqList xs ys
  | _, _ => false
/-- Structural equality test on field lists. -/
def JsVal.beqFields : List (Text × JsVal) → List (Text × JsVal) → Bool
  | [], [] => true
  | (k, x) :: xs, (l, y) :: ys => k == l && JsVal.beq x y && JsVal.beqFields xs ys
  | _, _ => false
end

mutual
theorem JsVal.eq_of_beq : ∀ (a b : JsVal), JsVal.beq a b = true → a = b
  | .undefined, b, h => by cases b <;> simp_all [JsVal.beq]
  | .null, b, h => by cases b <;> simp_all [JsVal.beq]
  | .bool x, b, h => by cases b <;> simp_all [JsVal.beq]
  | .num x, b, h => by cases b <;> simp_all [JsVal.beq]
  | .str x, b, h => by cases b <;> simp_all [JsVal.beq]
  | .arr xs, b, h => by
      cases b <;> simp [JsVal.beq] at h
      rename_i ys
      exact congrArg JsVal.arr (JsVal.eq_of_beqList xs ys h)
  | .obj xs, b, h => by
      cases b <;> simp [JsVal.beq] at h
      rename_i ys
      exact congrArg JsVal.obj (JsVal.eq_of_beqFields xs ys h)
theorem JsVal.eq_of_beqList : ∀ (a b : List JsVal), JsVal.beqList a b = true → a = b
  | [], b, h => by cases b <;> simp_all [JsVal.beqList]
  | x :: xs, b, h => by
      cases b with
      | nil => simp [JsVal.beqList] at h
      | cons y ys =>
        simp [JsVal.beqList] at h
        rw [JsVal.eq_of_beq x y h.1, JsVal.eq_of_beqList xs ys h.2]
theorem JsVal.eq_of_beqFields :
    ∀ (a b : List (Text × JsVal)), JsVal.beqFields a b = true → a = b
  | [], b, h => by cases b <;> simp_all [JsVal.beqFields]
  | (k, x) :: xs, b, h => by
      cases b with
      | nil => simp [JsVal.beqFields] at h
      | cons p ys =>
        obtain ⟨l, y⟩ := p
        simp [JsVal.beqFields] at h
        rw [h.1.1, JsVal.eq_of_beq x y h.1.2, JsVal.eq_of_beqFields xs ys h.2]
end

mutual
theorem JsVal.beq_self : ∀ (a : JsVal), JsVal.beq a a = true
  | .undefined => by simp [JsVal.beq]
  | .null => by simp [JsVal.beq]
  | .bool x => by simp [JsVal.beq]
  | .num x => by simp [JsVal.beq]
  | .str x => by simp [JsVal.beq]
  | .arr xs => by simp [JsVal.beq, JsVal.beqList_self xs]
  | .obj xs => by simp [JsVal.beq, JsVal.beqFields_self xs]
theorem JsVal.beqList_self : ∀ (a : List JsVal), JsVal.beqList a a = true
  | [] => by simp [JsVal.beqList]
  | x :: xs => by simp [JsVal.beqList, JsVal.beq_self x, JsVal.beqList_self xs]
theorem JsVal.beqFields_self : ∀ (a : List (Text × JsVal)), JsVal.beqFields a a = true
  | [] => by simp [JsVal.beqFields]
  | (k, x) :: xs => by simp [JsVal.beqFields, JsVal.beq_self x, JsVal.beqFields_self xs]
end

instance : DecidableEq JsVal := fun a b =>
  if h : JsVal.beq a b = true then isTrue (JsVal.eq_of_beq a b h)
  else isFalse (fun e => h (e ▸ JsVal.beq_self a))

/-! ## Text primitives -/

/-- The characters `String.prototype.trim` strips: ECMAScript WhiteSpace and LineTerminator. -/
def isWhiteSpace (c : Char) : Bool :=
  c.toNat ∈ [9, 10, 11, 12, 13, 32, 160, 5760, 8192, 8193, 8194, 8195, 8196, 8197, 8198,
    8199, 8200, 8201, 8202, 8232, 8233, 8239, 8287, 12288, 65279]

/-- The method `s.trim()`: strip whitespace from both ends. -/
def trim (s : Text) : Text :=
  (s.dropWhile isWhiteSpace).rdropWhile isWhiteSpace

/-! ## Code extractor -/

/-- The three languages of a code bundle. -/
inductive Lang where
  | html
  | css
  | js
  deriving DecidableEq

/-- The tags a fence of the language may carry, in the order the pattern tries them:
`html`, `css`, and `(javascript|js)`. -/
def fenceTags : Lang → List Text
  | .html => ["html".toList]
  | .css => ["css".toList]
  | .js => ["javascript".toList, "js".toList]

/-- The opening of a block: three backticks, the tag, a newline. -/
def openFence (tag : Text) : Text :=
  "```".toList ++ tag ++ "\n".toList

/-- The closing of a block: a newline and three backticks. -/
def closeFence : Text := "\n```".toList

/-- The tail `([\s\S]*?)\n` + three backticks of the patterns, anchored at the head of `s`:
the capture is the shortest run of characters after which the closing follows. -/
def lazyBody : Text → Option Text
  | [] => none
  | c :: rest =>
    if closeFence.isPrefixOf (c :: rest) then some []
    else (lazyBody rest).map (c :: ·)

/-- The whole pattern anchored at the head of `s`: the alternatives of the tag are tried in
order, and the capture of the body is returned. -/
def matchAt (tags : List Text) (s : Text) : Option Text :=
  match tags with
  | [] => none
  | tag :: more =>
    if (openFence tag).isPrefixOf s then
      match lazyBody (s.drop (openFence tag).length) with
      | some body => some body
      | none => matchAt more s
    else matchAt more s

/-- The call `content.match(/.../)` for one of the three patterns: the leftmost position at
which the pattern matches wins; the result is the captured body, or `none` for `null`. -/
def regexMatch (tags : List Text) : Text → Option Text
  | [] => matchAt tags []
  | c :: rest =>
    match matchAt tags (c :: rest) with
    | some body => some body
    | none => regexMatch tags rest

/-- The record `{ html, css, js }`. -/
structure CodeBundle where
  html : Text
  css : Text
  js : Text
  deriving DecidableEq

/-- The field of a bundle that belongs to a language. -/
def CodeBundle.field (b : CodeBundle) : Lang → Text
  | .html => b.html
  | .css => b.css
  | .js => b.js

/-- The two state variables the extractor writes: `codeFiles` and `showPreview`. -/
structure PreviewState where
  codeFiles : CodeBundle
  showPreview : Bool
  deriving DecidableEq

/-- The state both components start with:
`useState({ html: "", css: "", js: "" })` and `useState(false)`. -/
def initialPreview : PreviewState :=
  { codeFiles := { html := [], css := [], js := [] }, showPreview := false }

/-- The expression `m ? m[i].trim() : ""`. -/
def captureOrEmpty (m : Option Text) : Text :=
  match m with
  | some body => trim body
  | none => []

/-- The bundle both extractors build from the three matches. -/
def extractBundle (content : Text) : CodeBundle :=
  { html := captureOrEmpty (regexMatch (fenceTags .html) content)
    css := captureOrEmpty (regexMatch (fenceTags .css) content)
    js := captureOrEmpty (regexMatch (fenceTags .js) content) }

/-- The test `htmlMatch || cssMatch || jsMatch`. -/
def anyMatch (content : Text) : Bool :=
  (regexMatch (fenceTags .html) content).isSome
    || (regexMatch (fenceTags .css) content).isSome
    || (regexMatch (fenceTags .js) content).isSome

/-- The function `handleCodePreview` of `Chat`: both state variables are always written. -/
def handleCodePreview (_st : PreviewState) (content : Text) : PreviewState :=
  { codeFiles := extractBundle content, showPreview := anyMatch content }

/-- The function `parseCode` of `FormattedMessage`: the state is written only when at least
one pattern matched. -/
def parseCode (st : PreviewState) (content : Text) : PreviewState :=
  if anyMatch content then
    { codeFiles := extractBundle content, showPreview := true }
  else st

/-! ## Property reads -/

/-- Faults raised inside the loop of `handleSubmit`: the SyntaxError of `JSON.parse` and the
TypeError of a property read on `undefined` or `null`. -/
inductive Fault where
  | syntaxError
  | typeError
  deriving DecidableEq

/-- The value stored under a key of an object, `undefined` when the key is missing. -/
def lookup (key : Text) : List (Text × JsVal) → JsVal
  | [] => .undefined
  | (k, v) :: rest => if k = key then v else lookup key rest

/-- The read `v.key`, for the keys this component reads (none of them is a built-in property
of a string, number, boolean or array): a TypeError on `undefined` and `null`. -/
def getProp (v : JsVal) (key : Text) : Except Fault JsVal :=
  match v with
  | .undefined => .error .typeError
  | .null => .error .typeError
  | .obj fields => .ok (lookup key fields)
  | _ => .ok .undefined

/-- The read `v[0]`. -/
def getFirst (v : JsVal) : Except Fault JsVal :=
  match v with
  | .undefined => .error .typeError
  | .null => .error .typeError
  | .arr xs => .ok (xs.head?.getD .undefined)
  | .obj fields => .ok (lookup "0".toList fields)
  | .str (c :: _) => .ok (.str [c])
  | _ => .ok .undefined

/-- The read `v?.key`; also `v.key` at the places where `v` is known not to be `undefined` or
`null`, so that the read cannot throw. -/
def optChain (v : JsVal) (key : Text) : JsVal :=
  match getProp v key with
  | .ok r => r
  | .error _ => .undefined

/-- The truthiness of a value in a condition. -/
def truthy : JsVal → Bool
  | .undefined => false
  | .null => false
  | .bool b => b
  | .num n => decide (n ≠ 0)
  | .str s => decide (s ≠ [])
  | .arr _ => true
  | .obj _ => true

/-- The object spread with one override, `{ ...o, key: v }`, on the fields of `o`. -/
def setField (key : Text) (v : JsVal) : List (Text × JsVal) → List (Text × JsVal)
  | [] => [(key, v)]
  | (k, w) :: rest => if k = key then (k, v) :: rest else (k, w) :: setField key v rest

/-! ## The engine -/

/-- What compiling the template of `executeCode` around a code text and awaiting the call gives:
`new Function` rejects the text, or the statements, run inside the inner `try`, return a value
(`undefined` when they fall off the end) or throw one, which the inner `catch` receives; or
the awaited call rejects with a reason the inner `catch` never sees, as when the statements
return a promise that rejects; or the call never finishes. -/
inductive RunOutcome where
  | syntaxError (message : Text)
  | returned (value : JsVal)
  | threw (error : JsVal)
  | rejected (reason : JsVal)
  | never
  deriving DecidableEq

/-- How an awaited call ends: with a value, with a fault, or not at all. -/
inductive Completion (α : Type) where
  | ok (value : α)
  | error (fault : Fault)
  | never
  deriving DecidableEq

/-- What the component calls and the JavaScript engine provides. -/
structure Runtime where
  /-- The call `JSON.parse(text)`; `none` when it throws a SyntaxError. -/
  jsonParse : Text → Option JsVal
  /-- The call `JSON.stringify(v)` on an object or array. -/
  jsonStringify : JsVal → Text
  /-- The string conversion of a value that is not a string. -/
  toStr : JsVal → Text
  /-- Compiling and running a code text inside the template of `executeCode`. -/
  run : Text → RunOutcome
  /-- The message of the TypeError for reading `message` of `undefined` or `null`. -/
  readFaultMessage : JsVal → Text

/-- The string conversion in `s += v` and in a template literal. -/
def toText (rt : Runtime) : JsVal → Text
  | .str s => s
  | v => rt.toStr v

/-! ## Code execution and dispatch -/

/-- The function `executeCode`. The inner `catch` returns `{ error: error.message }` from the
compiled routine, so it becomes the `result`. The outer `catch` sees a SyntaxError of
`new Function`, a TypeError raised by the inner `catch` itself, or the reason of a rejection;
it returns `{ error: error.message }`, and throws in its turn when the reason is `undefined`
or `null`. -/
def executeCode (rt : Runtime) (code : JsVal) : Completion JsVal :=
  match rt.run (toText rt code) with
  | .syntaxError message => .ok (.obj [("error".toList, .str message)])
  | .returned value => .ok (.obj [("result".toList, value)])
  | .threw error =>
    match getProp error "message".toList with
    | .ok message => .ok (.obj [("result".toList, .obj [("error".toList, message)])])
    | .error _ => .ok (.obj [("error".toList, .str (rt.readFaultMessage error))])
  | .rejected reason =>
    match getProp reason "message".toList with
    | .ok message => .ok (.obj [("error".toList, message)])
    | .error e => .error e
  | .never => .never

/-- The function `handleFunctionCall` on `{ name, arguments }`. -/
def handleFunctionCall (rt : Runtime) (name arguments : JsVal) : Completion JsVal :=
  if name = .str "executeCode".toList then
    match getProp arguments "code".toList with
    | .ok code =>
      match executeCode rt code with
      | .ok result => .ok (.str (rt.jsonStringify result))
      | .error e => .error e
      | .never => .never
    | .error e => .error e
  else .ok .null

/-! ## The streaming loop of `handleSubmit` -/

/-- The local `functionCallInProgress` when it is not `null`. -/
structure FunctionCall where
  name : JsVal
  arguments : Text
  deriving DecidableEq

/-- The transcript and the two locals of the loop. -/
structure LoopState where
  messages : List JsVal
  accumulatedResponse : Text
  functionCallInProgress : Option FunctionCall
  deriving DecidableEq

/-- How a stretch of the loop ends, with the state at that moment: it ran through; or a fault
ended it, one that leaves the loop for the `catch` of `handleSubmit`, or one an updater raises
when React runs it, which unmounts the component, so that in both cases nothing reaches the
transcript any more; or it waits for a call that never finishes. -/
inductive Outcome where
  | done (st : LoopState)
  | failed (fault : Fault) (st : LoopState)
  | hung (st : LoopState)
  deriving DecidableEq

/-- The state an outcome carries. -/
def Outcome.state : Outcome → LoopState
  | .done st => st
  | .failed _ st => st
  | .hung st => st

/-- The message `{ role: "user", content }`. -/
def userMessage (content : Text) : JsVal :=
  .obj [("role".toList, .str "user".toList), ("content".toList, .str content)]

/-- The message `{ role: "assistant", content }`. -/
def assistantMessage (content : Text) : JsVal :=
  .obj [("role".toList, .str "assistant".toList), ("content".toList, .str content)]

/-- The message `{ role: "function", name, content }`. -/
def functionMessage (name content : JsVal) : JsVal :=
  .obj [("role".toList, .str "function".toList), ("name".toList, name),
    ("content".toList, content)]

/-- The object `{ ...last, content }`: the fields of `last`, with `content` overridden. -/
def withContent (last : JsVal) (content : Text) : JsVal :=
  match last with
  | .obj fields => .obj (setField "content".toList (.str content) fields)
  | _ => .obj [("content".toList, .str content)]

/-- The updater of the content branch: replace the last message when its role is
`assistant`, push a new assistant message otherwise. On an empty transcript `lastMessage`
is `undefined` and reading its role throws. -/
def mergeContent (acc : Text) (prev : List JsVal) : Except Fault (List JsVal) :=
  match prev.getLast? with
  | none => .error .typeError
  | some last =>
    match getProp last "role".toList with
    | .error e => .error e
    | .ok role =>
      if role = .str "assistant".toList then .ok (prev.dropLast ++ [withContent last acc])
      else .ok (prev ++ [assistantMessage acc])

/-- The updater of the function branch,
`(prev) => [...prev, { role: "function", name: functionCallInProgress.name, content }]`,
given the value `current` the variable `functionCallInProgress` has when React runs the
updater: reading `name` of `null` throws. -/
def appendFunctionResult (current : Option FunctionCall) (functionResult : JsVal)
    (prev : List JsVal) : Except Fault (List JsVal) :=
  match current with
  | none => .error .typeError
  | some call => .ok (prev ++ [functionMessage call.name functionResult])

/-- The body of the `for` loop on a parsed record `data`. In the function branch the call of
`setMessages` is followed by `functionCallInProgress = null`, and the updater runs after
that. -/
def processData (rt : Runtime) (st : LoopState) (data : JsVal) : Outcome :=
  match (getProp data "choices".toList).bind getFirst with
  | .error e => .failed e st
  | .ok choice =>
    match getProp choice "delta".toList with
    | .error e => .failed e st
    | .ok delta =>
      let fc := optChain delta "function_call".toList
      if truthy fc then
        let started : FunctionCall :=
          match st.functionCallInProgress with
          | some call => call
          | none => { name := optChain fc "name".toList, arguments := [] }
        let fragment := optChain fc "arguments".toList
        let call : FunctionCall :=
          if truthy fragment then
            { started with arguments := started.arguments ++ toText rt fragment }
          else started
        let st1 : LoopState := { st with functionCallInProgress := some call }
        if optChain choice "finish_reason".toList = .str "function_call".toList then
          match rt.jsonParse call.arguments with
          | none => .failed .syntaxError st1
          | some parsed =>
            match handleFunctionCall rt call.name parsed with
            | .error e => .failed e st1
            | .never => .hung st1
            | .ok functionResult =>
              match appendFunctionResult none functionResult st.messages with
              | .error e => .failed e { st with functionCallInProgress := none }
              | .ok messages =>
                .done { messages := messages
                        accumulatedResponse := st.accumulatedResponse
                        functionCallInProgress := none }
        else .done st1
      else
        let content := optChain delta "content".toList
        if truthy content then
          let acc := st.accumulatedResponse ++ toText rt content
          match mergeContent acc st.messages with
          | .error e => .failed e { st with accumulatedResponse := acc }
          | .ok messages => .done { st with accumulatedResponse := acc, messages := messages }
        else .done st

/-- The marker `"data: "` of a record line. -/
def dataTag : Text := "data: ".toList

/-- The body of the `for` loop on one line: only lines that start with `"data: "` count;
`line.slice(6)` is parsed. -/
def processLine (rt : Runtime) (st : LoopState) (line : Text) : Outcome :=
  if dataTag.isPrefixOf line then
    match rt.jsonParse (line.drop 6) with
    | none => .failed .syntaxError st
    | some data => processData rt st data
  else .done st

/-- The `for` loop over the lines of a chunk; a fault or a call that never finishes ends
it. -/
def processLines (rt : Runtime) (st : LoopState) : List Text → Outcome
  | [] => .done st
  | line :: rest =>
    match processLine rt st line with
    | .done st1 => processLines rt st1 rest
    | .failed e st1 => .failed e st1
    | .hung st1 => .hung st1

/-- The call `chunk.split("\n")`. -/
def splitLines : Text → List Text
  | [] => [[]]
  | c :: rest =>
    if c = '\n' then [] :: splitLines rest
    else
      match splitLines rest with
      | [] => [[c]]
      | line :: lines => (c :: line) :: lines

/-- The lines of a chunk: `chunk.split("\n").filter((line) => line.trim() !== "")`. -/
def chunkLines (chunk : Text) : List Text :=
  (splitLines chunk).filter (fun line => decide (trim line ≠ []))

/-- The `while` loop over the decoded chunks of the response, up to `done`. -/
def readLoop (rt : Runtime) (st : LoopState) : List Text → Outcome
  | [] => .done st
  | chunk :: rest =>
    match processLines rt st (chunkLines chunk) with
    | .done st1 => readLoop rt st1 rest
    | .failed e st1 => .failed e st1
    | .hung st1 => .hung st1

/-! ## The component state, `handleSubmit`, `clearChat` and the persistence effect -/

/-- The local storage: keys and their values. -/
abbrev Storage := List (Text × Text)

/-- The call `localStorage.getItem(key)`. -/
def getItem (key : Text) : Storage → Option Text
  | [] => none
  | (k, v) :: rest => if k = key then some v else getItem key rest

/-- The call `localStorage.removeItem(key)`. -/
def removeItem (key : Text) (s : Storage) : Storage :=
  s.filter (fun entry => decide (entry.1 ≠ key))

/-- The call `localStorage.setItem(key, value)`. -/
def setItem (key value : Text) (s : Storage) : Storage :=
  (key, value) :: removeItem key s

/-- The state of `Chat` the operations below touch, and the local storage. -/
structure ChatState where
  apiKey : Text
  messages : List JsVal
  inputMessage : Text
  isLoading : Bool
  storage : Storage
  deriving DecidableEq

/-- What `fetch` gives: it rejects, or a response with its `ok` flag and the decoded chunks
its body delivers. -/
inductive FetchResult where
  | rejected
  | response (ok : Bool) (chunks : List Text)

/-- The key of the persisted transcript. -/
def storageKey : Text := "chatMessages".toList

/-- The locals at the start of the loop:
`accumulatedResponse = ""`, `functionCallInProgress = null`. -/
def loopStart (messages : List JsVal) : LoopState :=
  { messages := messages, accumulatedResponse := [], functionCallInProgress := none }

/-- The `try` block of `handleSubmit` and its `catch`, which writes the transcript back as it
is: the transcript at the end of the request, or the one the request is left with when it
never ends. -/
def requestTranscript (rt : Runtime) (messages : List JsVal) : FetchResult → List JsVal
  | .rejected => messages
  | .response false _ => messages
  | .response true chunks => (readLoop rt (loopStart messages) chunks).state.messages

/-- The function `handleSubmit`, given what `fetch` gives. -/
def handleSubmit (rt : Runtime) (st : ChatState) (net : FetchResult) : ChatState :=
  if st.apiKey = [] ∨ trim st.inputMessage = [] then st
  else
    { st with
      messages := requestTranscript rt (st.messages ++ [userMessage st.inputMessage]) net
      inputMessage := []
      isLoading := false }

/-- The function `clearChat`. -/
def clearChat (st : ChatState) : ChatState :=
  { st with messages := [], storage := removeItem storageKey st.storage }

/-- The effect with dependency `[messages]`:
`localStorage.setItem("chatMessages", JSON.stringify(messages))`. It runs after every render
in which `messages` is a new array, as it is after `setMessages([])`. -/
def persistEffect (rt : Runtime) (st : ChatState) : ChatState :=
  { st with storage := setItem storageKey (rt.jsonStringify (.arr st.messages)) st.storage }

/-! ## A sample engine -/

/-- The record `{"choices":[{"delta":{"content":c}}]}`. -/
def contentRecord (c : Text) : JsVal :=
  .obj [("choices".toList, .arr [.obj [("delta".toList, .obj [("content".toList, .str c)])]])]

/-- The record `{"choices":[{"delta":{"function_call":fc},"finish_reason":fin}]}`. -/
def callRecord (fc : List (Text × JsVal)) (fin : JsVal) : JsVal :=
  .obj [("choices".toList, .arr [.obj [("delta".toList,
    .obj [("function_call".toList, .obj fc)]), ("finish_reason".toList, fin)]])]

/-- The payload `{"choices":[{"delta":{"content":"A"}}]}`. -/
def payloadA : Text :=
  "\x7b\"choices\":[\x7b\"delta\":\x7b\"content\":\"A\"\x7d\x7d]\x7d".toList

/-- The payload `{"choices":[{"delta":{"content":"B"}}]}`. -/
def payloadB : Text :=
  "\x7b\"choices\":[\x7b\"delta\":\x7b\"content\":\"B\"\x7d\x7d]\x7d".toList

/-- The payload of the first record of the function-call example of the specification: the
name `executeCode` and the argument fragment `{"co`. -/
def payloadCallOpen : Text :=
  ("\x7b\"choices\":[\x7b\"delta\":\x7b\"function_call\":\x7b\"name\":\"executeCode\","
    ++ "\"arguments\":\"\x7b\\\"co\"\x7d\x7d,\"finish_reason\":null\x7d]\x7d").toList

/-- The payload of the second record of that example: the argument fragment `de":"1+1"}` and
the finish reason `function_call`. -/
def payloadCallFinish : Text :=
  ("\x7b\"choices\":[\x7b\"delta\":\x7b\"function_call\":\x7b"
    ++ "\"arguments\":\"de\\\":\\\"1+1\\\"\x7d\"\x7d\x7d,"
    ++ "\"finish_reason\":\"function_call\"\x7d]\x7d").toList

/-- The payload of a single function-call record with the name `executeCode`, the arguments
text `null` and the finish reason `function_call`. -/
def payloadCallNull : Text :=
  ("\x7b\"choices\":[\x7b\"delta\":\x7b\"function_call\":\x7b\"name\":\"executeCode\","
    ++ "\"arguments\":\"null\"\x7d\x7d,\"finish_reason\":\"function_call\"\x7d]\x7d").toList

/-- The answers of `JSON.parse` on the texts the examples use; every other text, among them
`[DONE]`, counts as one that `JSON.parse` rejects. -/
def sampleParse (s : Text) : Option JsVal :=
  if s = payloadA then some (contentRecord "A".toList)
  else if s = payloadB then some (contentRecord "B".toList)
  else if s = payloadCallOpen then
    some (callRecord [("name".toList, .str "executeCode".toList),
      ("arguments".toList, .str "\x7b\"co".toList)] .null)
  else if s = payloadCallFinish then
    some (callRecord [("arguments".toList, .str "de\":\"1+1\"\x7d".toList)]
      (.str "function_call".toList))
  else if s = payloadCallNull then
    some (callRecord [("name".toList, .str "executeCode".toList),
      ("arguments".toList, .str "null".toList)] (.str "function_call".toList))
  else if s = "\x7b\"code\":\"1+1\"\x7d".toList then
    some (.obj [("code".toList, .str "1+1".toList)])
  else if s = "null".toList then some .null
  else none

/-- The answers of `JSON.stringify` on the values the examples use. -/
def sampleStringify (v : JsVal) : Text :=
  if v = .obj [("result".toList, .undefined)] then "\x7b\x7d".toList
  else if v = .obj [("result".toList, .obj [("error".toList, .str "boom".toList)])] then
    "\x7b\"result\":\x7b\"error\":\"boom\"\x7d\x7d".toList
  else if v = .obj [("error".toList, .str "boom".toList)] then
    "\x7b\"error\":\"boom\"\x7d".toList
  else if v = .arr [] then "[]".toList
  else []

/-- What running a code text gives, on the texts the examples use: the statement `1+1`
returns nothing, `throw new Error("boom")` throws an error object with that message,
`return Promise.reject(null)` rejects with `null`, and `while (true) {}` never finishes. -/
def sampleRun (code : Text) : RunOutcome :=
  if code = "1+1".toList then .returned .undefined
  else if code = "return 1+1".toList then .returned (.num 2)
  else if code = "throw new Error(\"boom\")".toList then
    .threw (.obj [("message".toList, .str "boom".toList)])
  else if code = "return Promise.reject(null)".toList then .rejected .null
  else if code = "while (true) \x7b\x7d".toList then .never
  else .syntaxError "Unexpected token".toList

/-- An engine that answers as a JavaScript engine does on the inputs of the examples. -/
def sampleRuntime : Runtime :=
  { jsonParse := sampleParse
    jsonStringify := sampleStringify
    toStr := fun v =>
      match v with
      | .undefined => "undefined".toList
      | .null => "null".toList
      | .bool true => "true".toList
      | .bool false => "false".toList
      | _ => "[object Object]".toList
    run := sampleRun
    readFaultMessage := fun _ => "Cannot read properties of null".toList }

/-- A transcript that ends with the user's message. -/
def sampleTranscript : List JsVal := [userMessage "hi".toList]

/-- One chunk with two content records, separated by a blank line. -/
def chunkAB : Text :=
  dataTag ++ payloadA ++ "\n\n".toList ++ dataTag ++ payloadB ++ "\n".toList

/-- One chunk with the two records of the function-call example. -/
def chunkCall : Text :=
  dataTag ++ payloadCallOpen ++ "\n".toList ++ dataTag ++ payloadCallFinish ++ "\n".toList

/-- One chunk with a content record, the line `data: [DONE]` and another content record. -/
def chunkDone : Text :=
  dataTag ++ payloadA ++ "\ndata: [DONE]\n".toList ++ dataTag ++ payloadB

/-- A text with one html block whose body holds three backticks. -/
def fencedText : Text := "```html\na```b\n```".toList

/-- A state of `Chat` with a key and a typed message. -/
def sampleChat : ChatState :=
  { apiKey := "key".toList, messages := [], inputMessage := "hi".toList, isLoading := false
    storage := [(storageKey, "[]".toList)] }

/-! ## Shapes of records -/

/-- The record `data` is a content delta that carries the string `c`: its delta has no
function call, and `delta.content` is `c`. -/
def IsContentDelta (data : JsVal) (c : Text) : Prop :=
  ∃ choice delta,
    (getProp data "choices".toList).bind getFirst = .ok choice ∧
    getProp choice "delta".toList = .ok delta ∧
    truthy (optChain delta "function_call".toList) = false ∧
    optChain delta "content".toList = .str c

/-- The line is a data line whose payload parses to a content delta with the non-empty
content `c`. -/
def IsContentLine (rt : Runtime) (line c : Text) : Prop :=
  c ≠ [] ∧ ∃ payload data,
    line = dataTag ++ payload ∧ rt.jsonParse payload = some data ∧ IsContentDelta data c

/-- The line is a data line whose payload parses to a function-call delta: `delta.function_call`
is present, carries `name` (possibly `undefined`) and the argument fragment `fragment`, and
`finish_reason` is `"function_call"` exactly when `fin` is set. -/
def IsCallLine (rt : Runtime) (fin : Bool) (line : Text) (name : JsVal) (fragment : Text) :
    Prop :=
  ∃ payload data choice delta,
    line = dataTag ++ payload ∧ rt.jsonParse payload = some data ∧
    (getProp data "choices".toList).bind getFirst = .ok choice ∧
    getProp choice "delta".toList = .ok delta ∧
    truthy (optChain delta "function_call".toList) = true ∧
    optChain (optChain delta "function_call".toList) "name".toList = name ∧
    optChain (optChain delta "function_call".toList) "arguments".toList = .str fragment ∧
    (optChain choice "finish_reason".toList = .str "function_call".toList ↔ fin = true)

/-- The call in progress after a function-call delta with the given name and fragment. -/
def extendCall (cur : Option FunctionCall) (name : JsVal) (fragment : Text) : FunctionCall :=
  match cur with
  | some call => { call with arguments := call.arguments ++ fragment }
  | none => { name := name, arguments := fragment }

/-- A block of one of the tags occurs in the text: an opening with the tag and, somewhere
after it, a closing. -/
def FenceOccurs (tags : List Text) (text : Text) : Prop :=
  ∃ pre tag body post, tag ∈ tags ∧ text = pre ++ openFence tag ++ body ++ closeFence ++ post

/-- The text `body` lies between the first opening with one of the tags and the first closing
after that opening. -/
def IsFirstBlock (tags : List Text) (text body : Text) : Prop :=
  ∃ pre tag post, tag ∈ tags ∧ text = pre ++ openFence tag ++ body ++ closeFence ++ post ∧
    (∀ t ∈ tags, ∀ p q, text = p ++ openFence t ++ q → pre.length ≤ p.length) ∧
    (∀ b q, body ++ closeFence ++ post = b ++ closeFence ++ q → body.length ≤ b.length)

/-- The backtick. -/
def backtick : Char := Char.ofNat 96

/-- Some language has a block in the text. -/
def AnyFence (text : Text) : Prop :=
  ∃ lang, FenceOccurs (fenceTags lang) text

/-! ## The loop as a fold over lines -/

theorem processLines_append (rt : Runtime) (st : LoopState) (xs ys : List Text) :
    processLines rt st (xs ++ ys) =
      match processLines rt st xs with
      | .done st1 => processLines rt st1 ys
      | .failed e st1 => .failed e st1
      | .hung st1 => .hung st1 := by
  induction xs generalizing st with
  | nil => simp [processLines]
  | cons x xs ih =>
    simp only [List.cons_append, processLines]
    cases processLine rt st x with
    | done st1 => simpa using ih st1
    | failed e st1 => rfl
    | hung st1 => rfl

theorem readLoop_eq_processLines (rt : Runtime) (st : LoopState) (chunks : List Text) :
    readLoop rt st chunks = processLines rt st (chunks.map chunkLines).flatten := by
  induction chunks generalizing st with
  | nil => simp [readLoop, processLines]
  | cons c cs ih =>
    simp only [readLoop, List.map_cons, List.flatten_cons, processLines_append]
    cases processLines rt st (chunkLines c) with
    | done st1 => simpa using ih st1
    | failed e st1 => rfl
    | hung st1 => rfl

theorem processLine_data (rt : Runtime) (st : LoopState) (payload : Text) :
    processLine rt st (dataTag ++ payload) =
      match rt.jsonParse payload with
      | none => .failed .syntaxError st
      | some data => processData rt st data := by
  have h1 : dataTag.isPrefixOf (dataTag ++ payload) = true := by
    simp [List.isPrefixOf_iff_prefix]
  have h2 : (dataTag ++ payload).drop 6 = payload := by
    simp [dataTag]
  simp only [processLine, h1, h2, if_true]

theorem processData_content (rt : Runtime) (st : LoopState) (data : JsVal) (c : Text)
    (hd : IsContentDelta data c) (hc : c ≠ []) :
    processData rt st data =
      match mergeContent (st.accumulatedResponse ++ c) st.messages with
      | .error e => .failed e { st with accumulatedResponse := st.accumulatedResponse ++ c }
      | .ok messages =>
        .done { st with accumulatedResponse := st.accumulatedResponse ++ c, messages := messages } := by
  obtain ⟨choice, delta, h1, h2, h3, h4⟩ := hd
  have h5 : truthy (JsVal.str c) = true := by simp [truthy, hc]
  simp only [processData, h1, h2, h3, h4, h5, toText, if_true, Bool.false_eq_true, if_false]

theorem processLine_content (rt : Runtime) (st : LoopState) (line c : Text)
    (h : IsContentLine rt line c) :
    processLine rt st line =
      match mergeContent (st.accumulatedResponse ++ c) st.messages with
      | .error e => .failed e { st with accumulatedResponse := st.accumulatedResponse ++ c }
      | .ok messages =>
        .done { st with accumulatedResponse := st.accumulatedResponse ++ c, messages := messages } := by
  obtain ⟨hc, payload, data, rfl, hp, hd⟩ := h
  rw [processLine_data, hp]
  exact processData_content rt st data c hd hc

theorem withContent_assistantMessage (a b : Text) :
    withContent (assistantMessage a) b = assistantMessage b := by
  simp [withContent, assistantMessage, setField]

theorem mergeContent_push (acc : Text) (prev : List JsVal) (last role : JsVal)
    (hlast : prev.getLast? = some last) (hrole : getProp last "role".toList = .ok role)
    (hne : role ≠ .str "assistant".toList) :
    mergeContent acc prev = .ok (prev ++ [assistantMessage acc]) := by
  simp only [mergeContent, hlast, hrole, hne, if_false]

theorem mergeContent_replace (acc a : Text) (T : List JsVal) :
    mergeContent acc (T ++ [assistantMessage a]) = .ok (T ++ [assistantMessage acc]) := by
  have h1 : (T ++ [assistantMessage a]).getLast? = some (assistantMessage a) := by simp
  have h2 : getProp (assistantMessage a) "role".toList = .ok (.str "assistant".toList) := by
    simp [getProp, assistantMessage, lookup]
  simp only [mergeContent, h1, h2, if_true, withContent_assistantMessage, List.dropLast_concat]

theorem processLines_content_open (rt : Runtime) (T : List JsVal) (fc : Option FunctionCall)
    (lines cs : List Text) (h : List.Forall₂ (IsContentLine rt) lines cs) (acc : Text) :
    processLines rt
        { messages := T ++ [assistantMessage acc], accumulatedResponse := acc,
          functionCallInProgress := fc } lines =
      .done { messages := T ++ [assistantMessage (acc ++ cs.flatten)]
              accumulatedResponse := acc ++ cs.flatten
              functionCallInProgress := fc } := by
  induction h generalizing acc with
  | nil => simp [processLines]
  | cons hl _ ih =>
    simp only [processLines, processLine_content rt _ _ _ hl, mergeContent_replace]
    simpa [List.append_assoc] using ih (acc ++ _)

theorem processLine_call_open (rt : Runtime) (st : LoopState) (line : Text) (name : JsVal)
    (fragment : Text) (h : IsCallLine rt false line name fragment) :
    processLine rt st line =
      .done { st with
        functionCallInProgress := some (extendCall st.functionCallInProgress name fragment) } := by
  obtain ⟨payload, data, choice, delta, rfl, hp, h1, h2, h3, h4, h5, h6⟩ := h
  have h7 : ¬ optChain choice "finish_reason".toList = .str "function_call".toList := by
    simpa using h6
  rw [processLine_data, hp]
  by_cases hf : fragment = []
  · have h8 : truthy (JsVal.str fragment) = false := by simp [truthy, hf]
    simp only [processData, h1, h2, h3, h4, h5, h7, h8, if_true, if_false, Bool.false_eq_true]
    cases hcur : st.functionCallInProgress <;> simp [extendCall, hf]
  · have h8 : truthy (JsVal.str fragment) = true := by simp [truthy, hf]
    simp only [processData, h1, h2, h3, h4, h5, h7, h8, if_true, if_false, toText]
    cases hcur : st.functionCallInProgress <;> simp [extendCall]

theorem processLine_call_finish (rt : Runtime) (st : LoopState) (line : Text) (name : JsVal)
    (fragment : Text) (h : IsCallLine rt true line name fragment) :
    processLine rt st line =
      match rt.jsonParse (extendCall st.functionCallInProgress name fragment).arguments with
      | none =>
        .failed .syntaxError { st with
          functionCallInProgress := some (extendCall st.functionCallInProgress name fragment) }
      | some parsed =>
        match handleFunctionCall rt
            (extendCall st.functionCallInProgress name fragment).name parsed with
        | .error e =>
          .failed e { st with
            functionCallInProgress := some (extendCall st.functionCallInProgress name fragment) }
        | .never =>
          .hung { st with
            functionCallInProgress := some (extendCall st.functionCallInProgress name fragment) }
        | .ok _ => .failed .typeError { st with functionCallInProgress := none } := by
  obtain ⟨payload, data, choice, delta, rfl, hp, h1, h2, h3, h4, h5, h6⟩ := h
  have h7 : optChain choice "finish_reason".toList = .str "function_call".toList := by
    simpa using h6
  rw [processLine_data, hp]
  have key : (if truthy (JsVal.str fragment) = true then
        ({ (match st.functionCallInProgress with
              | some call => call
              | none => { name := name, arguments := [] } : FunctionCall) with
            arguments := (match st.functionCallInProgress with
              | some call => call
              | none => { name := name, arguments := [] } : FunctionCall).arguments
                ++ fragment } : FunctionCall)
      else (match st.functionCallInProgress with
              | some call => call
              | none => { name := name, arguments := [] } : FunctionCall))
      = extendCall st.functionCallInProgress name fragment := by
    by_cases hf : fragment = []
    · cases hcur : st.functionCallInProgress <;> simp [extendCall, hf, truthy]
    · cases hcur : st.functionCallInProgress <;> simp [extendCall, hf, truthy]
  simp only [processData, h1, h2, h3, h4, h5, h7, if_true, toText, key, appendFunctionResult]

theorem processLines_call_open (rt : Runtime) (lines : List Text) (ds : List (JsVal × Text))
    (h : List.Forall₂ (fun line d => IsCallLine rt false line d.1 d.2) lines ds)
    (st : LoopState) (call : FunctionCall) :
    processLines rt { st with functionCallInProgress := some call } lines =
      .done { st with
        functionCallInProgress :=
          some { call with arguments := call.arguments ++ (ds.map Prod.snd).flatten } } := by
  induction h generalizing call with
  | nil => simp [processLines]
  | cons hl _ ih =>
    rename_i line d ls ds' _
    simp only [processLines, processLine_call_open rt _ _ _ _ hl, extendCall]
    simpa [List.append_assoc] using
      ih { name := call.name, arguments := call.arguments ++ d.2 }

/-! ## Claims about the streaming loop -/

/-- C1. Content merge: from a transcript whose last message is not an assistant message, with
the locals as they are at the start of the loop, a non-empty run of content deltas with the
non-empty contents `c :: cs` leaves the transcript followed by exactly one assistant message
whose content is the concatenation of the contents in arrival order. -/
theorem content_merge (rt : Runtime) (T : List JsVal) (last role : JsVal)
    (hlast : T.getLast? = some last) (hrole : getProp last "role".toList = .ok role)
    (hne : role ≠ .str "assistant".toList)
    (chunks : List Text) (line : Text) (lines : List Text) (c : Text) (cs : List Text)
    (hchunks : (chunks.map chunkLines).flatten = line :: lines)
    (hline : IsContentLine rt line c)
    (hlines : List.Forall₂ (IsContentLine rt) lines cs) :
    readLoop rt (loopStart T) chunks =
      .done { messages := T ++ [assistantMessage (c :: cs).flatten]
              accumulatedResponse := (c :: cs).flatten
              functionCallInProgress := none } := by
  rw [readLoop_eq_processLines, hchunks]
  simp only [processLines, processLine_content rt _ _ _ hline, loopStart,
    mergeContent_push _ T last role hlast hrole hne, List.nil_append]
  simpa using processLines_content_open rt T none lines cs hlines c

/-- C3. A content delta after a function result: when the last message has role `function`,
the merge step leaves the whole transcript as it is and appends a new assistant message that
holds the accumulator with the content of this delta added. -/
theorem content_after_function (rt : Runtime) (st : LoopState) (last : JsVal) (line c : Text)
    (hlast : st.messages.getLast? = some last)
    (hrole : getProp last "role".toList = .ok (.str "function".toList))
    (hline : IsContentLine rt line c) :
    processLine rt st line =
      .done { messages := st.messages ++ [assistantMessage (st.accumulatedResponse ++ c)]
              accumulatedResponse := st.accumulatedResponse ++ c
              functionCallInProgress := st.functionCallInProgress } := by
  have hne : JsVal.str "function".toList ≠ .str "assistant".toList := by decide
  simp only [processLine_content rt _ _ _ hline,
    mergeContent_push _ st.messages last _ hlast hrole hne]

/-- C2, what the code does. With no call in progress, take a run of function-call deltas of
which only the last has finish reason `function_call`, whose first record carries the name
`f` and whose argument fragments, concatenated in arrival order, parse to `parsed`. The loop
appends no message at all: the transcript stays as it was. When `handleFunctionCall` returns
a result, the updater that should append it runs after `functionCallInProgress = null`, and
reading `name` of `null` throws. -/
theorem function_result_not_appended (rt : Runtime) (st : LoopState)
    (hidle : st.functionCallInProgress = none)
    (chunks lines : List Text) (lastLine : Text) (ds : List (JsVal × Text))
    (dlast : JsVal × Text) (f parsed : JsVal)
    (hchunks : (chunks.map chunkLines).flatten = lines ++ [lastLine])
    (hlines : List.Forall₂ (fun l d => IsCallLine rt false l d.1 d.2) lines ds)
    (hlast : IsCallLine rt true lastLine dlast.1 dlast.2)
    (hname : (ds ++ [dlast]).head?.map Prod.fst = some f)
    (hparse : rt.jsonParse ((ds ++ [dlast]).map Prod.snd).flatten = some parsed) :
    (readLoop rt st chunks).state.messages = st.messages ∧
      ∀ r, handleFunctionCall rt f parsed = .ok r →
        readLoop rt st chunks = .failed .typeError { st with functionCallInProgress := none } := by
  rw [readLoop_eq_processLines, hchunks, processLines_append]
  cases hlines with
  | nil =>
    simp only [List.nil_append, List.head?_cons, Option.map_some', Option.some.injEq,
      List.map_cons, List.map_nil, List.flatten_cons, List.flatten_nil,
      List.append_nil] at hname hparse
    simp only [processLines, processLine_call_finish rt _ _ _ _ hlast, hidle, extendCall,
      hparse, hname]
    cases hcall : handleFunctionCall rt f parsed <;> simp [Outcome.state]
  | cons hl hrest =>
    rename_i l d ls ds'
    simp only [List.cons_append, List.head?_cons, Option.map_some', Option.some.injEq,
      List.map_cons, List.map_append, List.map_nil, List.flatten_cons, List.flatten_append,
      List.flatten_nil, List.append_nil] at hname hparse
    have hopen := processLines_call_open rt ls ds' hrest st { name := d.1, arguments := d.2 }
    simp only [processLines, processLine_call_open rt _ _ _ _ hl, hidle, extendCall, hopen,
      processLine_call_finish rt _ _ _ _ hlast]
    simp only [List.append_assoc] at hparse ⊢
    simp only [hparse, hname]
    cases hcall : handleFunctionCall rt f parsed <;> simp [Outcome.state]

/-- C8. An unparsable record aborts the turn: when the payload of a data line does not parse,
the transcript `handleSubmit` ends with is the one it ends with when the stream stops right
before that line; the lines after it have no effect. -/
theorem unparsable_record_aborts (rt : Runtime) (st : ChatState) (chunks chunks' : List Text)
    (pre post : List Text) (payload : Text)
    (hlines : (chunks.map chunkLines).flatten = pre ++ (dataTag ++ payload) :: post)
    (hpre : (chunks'.map chunkLines).flatten = pre)
    (hbad : rt.jsonParse payload = none) :
    (handleSubmit rt st (.response true chunks)).messages =
      (handleSubmit rt st (.response true chunks')).messages := by
  have key : ∀ s : LoopState,
      (readLoop rt s chunks).state.messages = (readLoop rt s chunks').state.messages := by
    intro s
    rw [readLoop_eq_processLines, readLoop_eq_processLines, hlines, hpre, processLines_append]
    cases processLines rt s pre with
    | done s1 => simp [processLines, processLine_data, hbad, Outcome.state]
    | failed e s1 => rfl
    | hung s1 => rfl
  unfold handleSubmit
  split
  · rfl
  · simp only [requestTranscript, key]

/-- C10. The grouping of whole lines into chunks does not matter: two lists of chunks with the
same sequence of non-blank lines end the loop in the same way, with the same transcript,
accumulator and call in progress, or with the same fault. -/
theorem chunking_irrelevant (rt : Runtime) (st : LoopState) (chunks chunks' : List Text)
    (h : (chunks.map chunkLines).flatten = (chunks'.map chunkLines).flatten) :
    readLoop rt st chunks = readLoop rt st chunks' := by
  rw [readLoop_eq_processLines, readLoop_eq_processLines, h]

/-! ## Claims about code execution and clearing -/

theorem executeCode_syntaxError (rt : Runtime) (code message : Text)
    (hrun : rt.run code = .syntaxError message) :
    executeCode rt (.str code) = .ok (.obj [("error".toList, .str message)]) := by
  simp only [executeCode, toText, hrun]

theorem executeCode_rejected_null (rt : Runtime) (code : Text)
    (hrun : rt.run code = .rejected .null) :
    executeCode rt (.str code) = .error .typeError := by
  simp only [executeCode, toText, hrun, getProp]

/-- C4, what the code does with a fault raised while running: when the statements throw a
value whose `message` is `m`, the inner `catch` hands `{ error: m }` to the compiled routine
as its return value, and `executeCode` returns `{ result: { error: m } }`, not `{ error: m }`;
`handleFunctionCall` returns the JSON text of that wrapped object. -/
theorem executeCode_runtime_fault (rt : Runtime) (code : Text) (e m : JsVal)
    (hrun : rt.run code = .threw e) (hmsg : getProp e "message".toList = .ok m) :
    executeCode rt (.str code) = .ok (.obj [("result".toList, .obj [("error".toList, m)])]) ∧
      executeCode rt (.str code) ≠ .ok (.obj [("error".toList, m)]) ∧
      handleFunctionCall rt (.str "executeCode".toList) (.obj [("code".toList, .str code)]) =
        .ok (.str (rt.jsonStringify
          (.obj [("result".toList, .obj [("error".toList, m)])]))) := by
  have h1 : executeCode rt (.str code) =
      .ok (.obj [("result".toList, .obj [("error".toList, m)])]) := by
    simp only [executeCode, toText, hrun, hmsg]
  refine ⟨h1, ?_, ?_⟩
  · rw [h1]
    intro h
    injection h with h
    injection h with h
    injection h with h _
    injection h with h _
    exact absurd h (by decide)
  · have hcode : getProp (.obj [("code".toList, .str code)]) "code".toList =
        .ok (.str code) := by
      simp [getProp, lookup]
    simp only [handleFunctionCall, hcode, h1, if_true]

/-- C5, what the code does: after `clearChat` and the persistence effect it triggers, the
transcript is empty, and the storage holds the serialised empty transcript under
`chatMessages`; the entry `clearChat` removed is written again. -/
theorem clearChat_then_persist (rt : Runtime) (st : ChatState) :
    (persistEffect rt (clearChat st)).messages = [] ∧
      getItem storageKey (persistEffect rt (clearChat st)).storage =
        some (rt.jsonStringify (.arr [])) := by
  simp [persistEffect, clearChat, setItem, getItem]

/-! ## Facts about the extractor -/

theorem closeFence_isPrefixOf (s : Text) :
    closeFence.isPrefixOf s = true ↔ ∃ post, s = closeFence ++ post := by
  rw [List.isPrefixOf_iff_prefix]
  constructor
  · rintro ⟨t, h⟩
    exact ⟨t, h.symm⟩
  · rintro ⟨t, h⟩
    exact ⟨t, h.symm⟩

theorem lazyBody_eq_some (r b : Text) (h : lazyBody r = some b) :
    (∃ post, r = b ++ closeFence ++ post) ∧
      ∀ b' q, r = b' ++ closeFence ++ q → b.length ≤ b'.length := by
  induction r generalizing b with
  | nil => simp [lazyBody] at h
  | cons c rest ih =>
    unfold lazyBody at h
    by_cases hp : closeFence.isPrefixOf (c :: rest) = true
    · rw [if_pos hp] at h
      cases h
      obtain ⟨post, hpost⟩ := (closeFence_isPrefixOf _).1 hp
      exact ⟨⟨post, by simpa using hpost⟩, fun _ _ _ => Nat.zero_le _⟩
    · rw [if_neg hp] at h
      cases hl : lazyBody rest with
      | none => simp [hl] at h
      | some b0 =>
        simp only [hl, Option.map_some', Option.some.injEq] at h
        subst h
        obtain ⟨⟨post, hpost⟩, hmin⟩ := ih b0 hl
        refine ⟨⟨post, by simp [hpost]⟩, ?_⟩
        intro b' q hb'
        cases b' with
        | nil =>
          exact absurd ((closeFence_isPrefixOf _).2 ⟨q, by simpa using hb'⟩) hp
        | cons c' b'' =>
          simp only [List.cons_append, List.cons.injEq] at hb'
          have := hmin b'' q hb'.2
          simpa using this

theorem lazyBody_isSome (b' q : Text) : ∃ b, lazyBody (b' ++ closeFence ++ q) = some b := by
  induction b' with
  | nil =>
    have hp : closeFence.isPrefixOf (closeFence ++ q) = true :=
      (closeFence_isPrefixOf _).2 ⟨q, rfl⟩
    refine ⟨[], ?_⟩
    have hne : ∃ c rest, closeFence ++ q = c :: rest := ⟨_, _, rfl⟩
    obtain ⟨c, rest, hcr⟩ := hne
    simp only [List.nil_append]
    rw [hcr] at hp ⊢
    simp only [lazyBody, hp, if_true]
  | cons c b'' ih =>
    obtain ⟨b, hb⟩ := ih
    simp only [List.cons_append, lazyBody]
    split
    · exact ⟨_, rfl⟩
    · simp only [List.append_assoc] at hb
      exact ⟨c :: b, by simp [hb]⟩

theorem matchAt_eq_some (tags : List Text) (s b : Text) (h : matchAt tags s = some b) :
    ∃ tag r, tag ∈ tags ∧ s = openFence tag ++ r ∧ lazyBody r = some b := by
  induction tags with
  | nil => simp [matchAt] at h
  | cons tag more ih =>
    unfold matchAt at h
    by_cases hp : (openFence tag).isPrefixOf s = true
    · rw [if_pos hp] at h
      obtain ⟨r, hr⟩ := List.isPrefixOf_iff_prefix.1 hp
      have hd : s.drop (openFence tag).length = r := by
        rw [← hr]; simp
      rw [hd] at h
      cases hl : lazyBody r with
      | some b0 =>
        simp only [hl, Option.some.injEq] at h
        subst h
        exact ⟨tag, r, List.mem_cons_self _ _, hr.symm, hl⟩
      | none =>
        simp only [hl] at h
        obtain ⟨t, r', ht, hs, hb⟩ := ih h
        exact ⟨t, r', List.mem_cons_of_mem _ ht, hs, hb⟩
    · rw [if_neg hp] at h
      obtain ⟨t, r', ht, hs, hb⟩ := ih h
      exact ⟨t, r', List.mem_cons_of_mem _ ht, hs, hb⟩

theorem matchAt_isSome (tags : List Text) (tag r b' : Text) (ht : tag ∈ tags)
    (hb : lazyBody r = some b') : ∃ b, matchAt tags (openFence tag ++ r) = some b := by
  induction tags with
  | nil => simp at ht
  | cons tag0 more ih =>
    unfold matchAt
    by_cases hp : (openFence tag0).isPrefixOf (openFence tag ++ r) = true
    · rw [if_pos hp]
      cases hl : lazyBody ((openFence tag ++ r).drop (openFence tag0).length) with
      | some b0 => exact ⟨b0, rfl⟩
      | none =>
        simp only
        rcases List.mem_cons.1 ht with rfl | hmem
        · simp [hb] at hl
        · exact ih hmem
    · rw [if_neg hp]
      rcases List.mem_cons.1 ht with rfl | hmem
      · exact absurd (List.isPrefixOf_iff_prefix.2 ⟨r, rfl⟩) hp
      · exact ih hmem

theorem regexMatch_of_matchAt (tags : List Text) (s b : Text) (h : matchAt tags s = some b) :
    regexMatch tags s = some b := by
  cases s with
  | nil => simpa [regexMatch] using h
  | cons c rest => simp [regexMatch, h]

theorem regexMatch_eq_some (tags : List Text) (s b : Text) (h : regexMatch tags s = some b) :
    ∃ pre rest, s = pre ++ rest ∧ matchAt tags rest = some b ∧
      ∀ pre' rest', s = pre' ++ rest' → pre'.length < pre.length →
        matchAt tags rest' = none := by
  induction s with
  | nil =>
    refine ⟨[], [], rfl, by simpa [regexMatch] using h, ?_⟩
    intro _ _ _ hlt
    simp at hlt
  | cons c rest ih =>
    unfold regexMatch at h
    cases hm : matchAt tags (c :: rest) with
    | some b0 =>
      simp only [hm, Option.some.injEq] at h
      subst h
      refine ⟨[], c :: rest, rfl, hm, ?_⟩
      intro _ _ _ hlt
      simp at hlt
    | none =>
      simp only [hm] at h
      obtain ⟨pre, r, hs, hr, hmin⟩ := ih h
      refine ⟨c :: pre, r, by simp [hs], hr, ?_⟩
      intro pre' rest' hs' hlt
      cases pre' with
      | nil =>
        simp only [List.nil_append] at hs'
        rw [← hs']
        exact hm
      | cons c' pre'' =>
        simp only [List.cons_append, List.cons.injEq] at hs'
        exact hmin pre'' rest' hs'.2 (by simpa using hlt)

theorem regexMatch_isSome (tags : List Text) (pre rest b' : Text)
    (h : matchAt tags rest = some b') : ∃ b, regexMatch tags (pre ++ rest) = some b := by
  induction pre with
  | nil => exact ⟨b', regexMatch_of_matchAt tags rest b' h⟩
  | cons c pre' ih =>
    obtain ⟨b, hb⟩ := ih
    simp only [List.cons_append, regexMatch]
    cases matchAt tags (c :: (pre' ++ rest)) with
    | some b0 => exact ⟨b0, rfl⟩
    | none => exact ⟨b, hb⟩

theorem openFence_eq (t : Text) :
    openFence t = backtick :: backtick :: backtick :: (t ++ ['\n']) := rfl

theorem tag_head_ne_backtick (t q X : Text) (ht : backtick ∉ t) :
    (t ++ ['\n']) ++ q ≠ backtick :: X := by
  cases t with
  | nil =>
    intro h
    simp only [List.nil_append, List.cons_append, List.cons.injEq] at h
    exact absurd h.1 (by decide)
  | cons x t' =>
    intro h
    simp only [List.cons_append, List.cons.injEq] at h
    exact ht (by simp [h.1])

theorem tag_skip (t q d X : Text) (ht : backtick ∉ t)
    (h : (t ++ ['\n']) ++ q = d ++ backtick :: X) : ∃ d', q = d' ++ backtick :: X := by
  induction t generalizing d with
  | nil =>
    cases d with
    | nil =>
      simp only [List.nil_append, List.cons_append, List.cons.injEq] at h
      exact absurd h.1 (by decide)
    | cons y d'' =>
      simp only [List.nil_append, List.cons_append, List.cons.injEq] at h
      exact ⟨d'', h.2⟩
  | cons x t' ih =>
    cases d with
    | nil =>
      simp only [List.nil_append, List.cons_append, List.cons.injEq] at h
      exact absurd (by simp [h.1]) ht
    | cons y d'' =>
      simp only [List.cons_append, List.cons.injEq] at h
      exact ih d'' (fun hm => ht (List.mem_cons_of_mem _ hm)) h.2

theorem opener_overlap (t tag d q rest : Text) (ht : backtick ∉ t) (hd : d ≠ [])
    (h : openFence t ++ q = d ++ (openFence tag ++ rest)) :
    ∃ d', q = d' ++ (openFence tag ++ rest) := by
  simp only [openFence_eq, List.cons_append] at h ⊢
  match d, hd with
  | [a], _ =>
    simp only [List.cons_append, List.nil_append, List.cons.injEq] at h
    exact absurd h.2.2.2 (tag_head_ne_backtick t q _ ht)
  | [a, a2], _ =>
    simp only [List.cons_append, List.nil_append, List.cons.injEq] at h
    exact absurd h.2.2.2 (tag_head_ne_backtick t q _ ht)
  | a :: a2 :: a3 :: d'', _ =>
    simp only [List.cons_append, List.cons.injEq] at h
    exact tag_skip t q d'' _ ht h.2.2.2

theorem fenceTags_no_backtick (lang : Lang) : ∀ t ∈ fenceTags lang, backtick ∉ t := by
  cases lang <;> decide

theorem regexMatch_first_block (tags : List Text) (hbt : ∀ t ∈ tags, backtick ∉ t)
    (s b : Text) (h : regexMatch tags s = some b) : IsFirstBlock tags s b := by
  obtain ⟨pre, rest, hs, hrest, hmin⟩ := regexMatch_eq_some tags s b h
  obtain ⟨tag, r, htag, hr, hlazy⟩ := matchAt_eq_some tags rest b hrest
  obtain ⟨⟨post, hpost⟩, hbmin⟩ := lazyBody_eq_some r b hlazy
  refine ⟨pre, tag, post, htag, ?_, ?_, ?_⟩
  · rw [hs, hr, hpost]; simp [List.append_assoc]
  · intro t ht p q hpq
    by_contra hlt
    have hlt' : p.length < pre.length := Nat.lt_of_not_le hlt
    have hnone := hmin p (openFence t ++ q) (by rw [hpq]; simp [List.append_assoc]) hlt'
    have heq : p ++ (openFence t ++ q) = pre ++ (openFence tag ++ r) := by
      rw [← hr, ← hs, hpq]; simp [List.append_assoc]
    rcases List.append_eq_append_iff.1 heq with ⟨a', ha, hq⟩ | ⟨c', hc, _⟩
    · have ha' : a' ≠ [] := by
        rintro rfl
        simp [ha] at hlt'
      obtain ⟨d', hd'⟩ := opener_overlap t tag a' q r (hbt t ht) ha' hq
      obtain ⟨b1, hb1⟩ := lazyBody_isSome (d' ++ openFence tag ++ b) post
      have hq' : q = d' ++ openFence tag ++ b ++ closeFence ++ post := by
        rw [hd', hpost]; simp [List.append_assoc]
      rw [← hq'] at hb1
      obtain ⟨b2, hb2⟩ := matchAt_isSome tags t q b1 ht hb1
      rw [hnone] at hb2
      cases hb2
    · rw [hc] at hlt'
      simp at hlt'
  · intro b' q hb'
    exact hbmin b' q (by rw [hpost, hb'])

theorem fenceOccurs_iff (tags : List Text) (s : Text) :
    FenceOccurs tags s ↔ (regexMatch tags s).isSome = true := by
  constructor
  · rintro ⟨pre, tag, body, post, htag, rfl⟩
    obtain ⟨b1, hb1⟩ := lazyBody_isSome body post
    obtain ⟨b2, hb2⟩ := matchAt_isSome tags tag _ b1 htag hb1
    obtain ⟨b3, hb3⟩ := regexMatch_isSome tags pre _ b2 hb2
    have : pre ++ openFence tag ++ body ++ closeFence ++ post =
        pre ++ (openFence tag ++ (body ++ closeFence ++ post)) := by
      simp [List.append_assoc]
    rw [this, hb3]
    rfl
  · intro h
    obtain ⟨b, hb⟩ := Option.isSome_iff_exists.1 h
    obtain ⟨pre, rest, hs, hrest, _⟩ := regexMatch_eq_some tags s b hb
    obtain ⟨tag, r, htag, hr, hlazy⟩ := matchAt_eq_some tags rest b hrest
    obtain ⟨⟨post, hpost⟩, _⟩ := lazyBody_eq_some r b hlazy
    exact ⟨pre, tag, b, post, htag, by rw [hs, hr, hpost]; simp [List.append_assoc]⟩

instance (tags : List Text) (s : Text) : Decidable (FenceOccurs tags s) :=
  decidable_of_iff _ (fenceOccurs_iff tags s).symm

theorem regexMatch_eq_none (tags : List Text) (s : Text) (h : ¬ FenceOccurs tags s) :
    regexMatch tags s = none := by
  rw [fenceOccurs_iff] at h
  cases hm : regexMatch tags s with
  | none => rfl
  | some b => simp [hm] at h

theorem trim_inside (s : Text) : trim s <:+: s :=
  ( List.rdropWhile_prefix isWhiteSpace _).isInfix.trans
    ( List.dropWhile_suffix isWhiteSpace).isInfix

theorem trim_head (s : Text) (c : Char) (h : (trim s).head? = some c) :
    isWhiteSpace c = false := by
  have hpre : trim s <+: s.dropWhile isWhiteSpace := List.rdropWhile_prefix isWhiteSpace _
  obtain ⟨t, ht⟩ := hpre
  have hne : trim s ≠ [] := by
    intro e; simp [e] at h
  have h2 : (s.dropWhile isWhiteSpace).head? = some c := by
    rw [← ht]
    cases htr : trim s with
    | nil => exact absurd htr hne
    | cons x xs => rw [htr] at h; simpa using h
  have h3 := List.head?_dropWhile_not isWhiteSpace s
  rw [h2] at h3
  simpa using h3

theorem trim_last (s : Text) (c : Char) (h : (trim s).getLast? = some c) :
    isWhiteSpace c = false := by
  have hne : trim s ≠ [] := by
    intro e; simp [e] at h
  have h1 := List.rdropWhile_last_not isWhiteSpace (s.dropWhile isWhiteSpace) hne
  have h2 : (trim s).getLast hne = c := by
    rw [List.getLast?_eq_getLast _ hne] at h
    exact Option.some.inj h
  have h3 : (List.rdropWhile isWhiteSpace (s.dropWhile isWhiteSpace)).getLast hne = c := h2
  rw [h3] at h1
  simpa using h1

theorem firstBlock_no_close (tags : List Text) (s b : Text) (h : IsFirstBlock tags s b) :
    ¬ closeFence <:+: b := by
  obtain ⟨pre, tag, post, _, _, _, hmin⟩ := h
  rintro ⟨x, y, hxy⟩
  have := hmin x (y ++ closeFence ++ post) (by rw [← hxy]; simp [List.append_assoc])
  rw [← hxy] at this
  simp [closeFence] at this

theorem extractBundle_field (text : Text) (lang : Lang) :
    (extractBundle text).field lang = captureOrEmpty (regexMatch (fenceTags lang) text) := by
  cases lang <;> rfl

theorem anyMatch_iff (text : Text) : anyMatch text = true ↔ AnyFence text := by
  simp only [anyMatch, Bool.or_eq_true, ← fenceOccurs_iff, AnyFence]
  constructor
  · rintro ((h | h) | h)
    · exact ⟨.html, h⟩
    · exact ⟨.css, h⟩
    · exact ⟨.js, h⟩
  · rintro ⟨lang, h⟩
    cases lang
    · exact Or.inl (Or.inl h)
    · exact Or.inl (Or.inr h)
    · exact Or.inr h

/-! ## Claims about the extractor -/

/-- Where absent languages do give empty strings: both extractors are total functions of the
text, so neither can raise; for a language with no block in the text, the field of the bundle
`handleCodePreview` writes is empty, and so is the field of the bundle `parseCode` leaves in a
freshly mounted component, and of the bundle `parseCode` writes whenever some language has a
block; when no language has one, `parseCode` writes no bundle and leaves the state as it
is. -/
theorem absent_language_empty (st : PreviewState) (text : Text) (lang : Lang)
    (h : ¬ FenceOccurs (fenceTags lang) text) :
    (handleCodePreview st text).codeFiles.field lang = [] ∧
      (parseCode initialPreview text).codeFiles.field lang = [] ∧
      (AnyFence text → (parseCode st text).codeFiles.field lang = []) ∧
      (¬ AnyFence text → parseCode st text = st) := by
  have hnone := regexMatch_eq_none _ _ h
  have hb : (extractBundle text).field lang = [] := by
    rw [extractBundle_field, hnone]; rfl
  refine ⟨hb, ?_, ?_, ?_⟩
  · unfold parseCode
    split
    · exact hb
    · cases lang <;> rfl
  · intro hany
    have := (anyMatch_iff text).2 hany
    simp only [parseCode, this, if_true]
    exact hb
  · intro hno
    have : ¬ anyMatch text = true := fun hm => hno ((anyMatch_iff text).1 hm)
    unfold parseCode
    rw [if_neg this]

/-- C7, as amended. When the text has an opening with the tag followed by a newline and,
after it, a newline followed by three backticks, the extracted body is the trimmed text
between the first such opening and the first such closing after it; it contains no newline
followed by three backticks and has no whitespace at either end. -/
theorem first_block_trimmed (st : PreviewState) (text : Text) (lang : Lang)
    (h : FenceOccurs (fenceTags lang) text) :
    ∃ body, IsFirstBlock (fenceTags lang) text body ∧
      (handleCodePreview st text).codeFiles.field lang = trim body ∧
      (parseCode st text).codeFiles.field lang = trim body ∧
      ¬ closeFence <:+: trim body ∧
      (∀ c, (trim body).head? = some c → isWhiteSpace c = false) ∧
      (∀ c, (trim body).getLast? = some c → isWhiteSpace c = false) := by
  obtain ⟨body, hbody⟩ := Option.isSome_iff_exists.1 ((fenceOccurs_iff _ _).1 h)
  have hfirst := regexMatch_first_block _ (fenceTags_no_backtick lang) text body hbody
  have hb : (extractBundle text).field lang = trim body := by
    rw [extractBundle_field, hbody]; rfl
  have hany : anyMatch text = true := (anyMatch_iff text).2 ⟨lang, h⟩
  refine ⟨body, hfirst, hb, ?_, ?_, trim_head body, trim_last body⟩
  · simp only [parseCode, hany, if_true]
    exact hb
  · intro hc
    exact firstBlock_no_close _ _ _ hfirst (hc.trans (trim_inside body))

/-- C6, what the code does: on a text in which no language has a block, `parseCode` writes no
bundle, so every field stays what the component held before, empty or not, where
`handleCodePreview` writes the empty string. -/
theorem parseCode_keeps_bundle (st : PreviewState) (text : Text) (lang : Lang)
    (hno : ¬ AnyFence text) :
    (parseCode st text).codeFiles.field lang = st.codeFiles.field lang ∧
      (handleCodePreview st text).codeFiles.field lang = [] := by
  have hm : ¬ anyMatch text = true := fun hm => hno ((anyMatch_iff text).1 hm)
  have hnone : regexMatch (fenceTags lang) text = none :=
    regexMatch_eq_none _ _ (fun h => hno ⟨lang, h⟩)
  constructor
  · unfold parseCode
    rw [if_neg hm]
  · show (extractBundle text).field lang = []
    rw [extractBundle_field, hnone]; rfl

/-- C9, what the code does: on a text in which no language has a block, `parseCode` leaves
the flag as it was, on or off, where `handleCodePreview` turns it off. -/
theorem parseCode_keeps_flag (st : PreviewState) (text : Text) (hno : ¬ AnyFence text) :
    (parseCode st text).showPreview = st.showPreview ∧
      (handleCodePreview st text).showPreview = false := by
  have hm : ¬ anyMatch text = true := fun hm => hno ((anyMatch_iff text).1 hm)
  constructor
  · unfold parseCode
    rw [if_neg hm]
  · simpa [handleCodePreview] using hm

/-! ## Examples and instances of the claims -/

theorem isContentLine_A : IsContentLine sampleRuntime (dataTag ++ payloadA) "A".toList :=
  ⟨by decide, payloadA, contentRecord "A".toList, rfl, by decide, _, _, rfl, rfl, rfl, rfl⟩

theorem isContentLine_B : IsContentLine sampleRuntime (dataTag ++ payloadB) "B".toList :=
  ⟨by decide, payloadB, contentRecord "B".toList, rfl, by decide, _, _, rfl, rfl, rfl, rfl⟩

/-- C1, the example of the specification: the records `A` and `B` after the user's message give
one assistant message `AB`. -/
theorem content_merge_witness :
    readLoop sampleRuntime (loopStart sampleTranscript) [chunkAB] =
      .done { messages := sampleTranscript ++ [assistantMessage "AB".toList]
              accumulatedResponse := "AB".toList
              functionCallInProgress := none } :=
  content_merge sampleRuntime sampleTranscript (userMessage "hi".toList) (.str "user".toList)
    rfl rfl (by decide) [chunkAB] (dataTag ++ payloadA) [dataTag ++ payloadB] "A".toList
    ["B".toList] (by decide) isContentLine_A (List.Forall₂.cons isContentLine_B List.Forall₂.nil)

/-- C3, an instance: a content record after a function result. -/
theorem content_after_function_witness :
    processLine sampleRuntime
        { messages := sampleTranscript ++ [functionMessage (.str "executeCode".toList) .null]
          accumulatedResponse := "B".toList
          functionCallInProgress := none }
        (dataTag ++ payloadA) =
      .done { messages := sampleTranscript ++
                [functionMessage (.str "executeCode".toList) .null] ++
                [assistantMessage "BA".toList]
              accumulatedResponse := "BA".toList
              functionCallInProgress := none } :=
  content_after_function sampleRuntime _ (functionMessage (.str "executeCode".toList) .null)
    (dataTag ++ payloadA) "A".toList rfl rfl isContentLine_A

theorem isCallLine_open :
    IsCallLine sampleRuntime false (dataTag ++ payloadCallOpen) (.str "executeCode".toList)
      "\x7b\"co".toList :=
  ⟨payloadCallOpen,
    callRecord [("name".toList, .str "executeCode".toList),
      ("arguments".toList, .str "\x7b\"co".toList)] .null,
    _, _, rfl, by decide, rfl, rfl, rfl, rfl, rfl, by decide⟩

theorem isCallLine_finish :
    IsCallLine sampleRuntime true (dataTag ++ payloadCallFinish) .undefined
      "de\":\"1+1\"\x7d".toList :=
  ⟨payloadCallFinish,
    callRecord [("arguments".toList, .str "de\":\"1+1\"\x7d".toList)]
      (.str "function_call".toList),
    _, _, rfl, by decide, rfl, rfl, rfl, rfl, rfl, by decide⟩

theorem isCallLine_null :
    IsCallLine sampleRuntime true (dataTag ++ payloadCallNull) (.str "executeCode".toList)
      "null".toList :=
  ⟨payloadCallNull,
    callRecord [("name".toList, .str "executeCode".toList),
      ("arguments".toList, .str "null".toList)] (.str "function_call".toList),
    _, _, rfl, by decide, rfl, rfl, rfl, rfl, rfl, by decide⟩

set_option maxRecDepth 8000 in
/-- C2, the example of the specification: the fragments `{"co` and `de":"1+1"}` under the name
`executeCode`. The dispatch returns `{}`, since the statement `1+1` returns nothing, and the
loop ends with the TypeError of the updater; the transcript is still the user's message
alone. -/
theorem function_result_not_appended_witness :
    ((readLoop sampleRuntime (loopStart sampleTranscript) [chunkCall]).state.messages =
          (loopStart sampleTranscript).messages ∧
        ∀ r, handleFunctionCall sampleRuntime (.str "executeCode".toList)
            (.obj [("code".toList, .str "1+1".toList)]) = .ok r →
          readLoop sampleRuntime (loopStart sampleTranscript) [chunkCall] =
            .failed .typeError
              { loopStart sampleTranscript with functionCallInProgress := none }) ∧
      handleFunctionCall sampleRuntime (.str "executeCode".toList)
          (.obj [("code".toList, .str "1+1".toList)]) = .ok (.str "\x7b\x7d".toList) ∧
      readLoop sampleRuntime (loopStart sampleTranscript) [chunkCall] =
        .failed .typeError
          { messages := [userMessage "hi".toList]
            accumulatedResponse := []
            functionCallInProgress := none } :=
  ⟨function_result_not_appended sampleRuntime (loopStart sampleTranscript) rfl [chunkCall]
      [dataTag ++ payloadCallOpen] (dataTag ++ payloadCallFinish)
      [(.str "executeCode".toList, "\x7b\"co".toList)] (.undefined, "de\":\"1+1\"\x7d".toList)
      (.str "executeCode".toList) (.obj [("code".toList, .str "1+1".toList)])
      (by decide)
      (List.Forall₂.cons isCallLine_open List.Forall₂.nil) isCallLine_finish
      rfl (by decide),
    by decide, by decide⟩

set_option maxRecDepth 8000 in
/-- An example with the arguments text `null`: it parses, `handleFunctionCall` reads `code` of
`null` and throws, and the loop is left for the `catch` before any updater is queued. -/
theorem function_call_null_arguments :
    IsCallLine sampleRuntime true (dataTag ++ payloadCallNull) (.str "executeCode".toList)
        "null".toList ∧
      sampleRuntime.jsonParse "null".toList = some .null ∧
      readLoop sampleRuntime (loopStart sampleTranscript) [dataTag ++ payloadCallNull] =
        .failed .typeError
          { messages := sampleTranscript
            accumulatedResponse := []
            functionCallInProgress :=
              some { name := .str "executeCode".toList, arguments := "null".toList } } :=
  ⟨isCallLine_null, by decide, by decide⟩

/-- C8, an instance: after the line `data: [DONE]` nothing is merged; the transcript is the
one of the stream that ends before that line. -/
theorem unparsable_record_aborts_witness :
    (handleSubmit sampleRuntime sampleChat (.response true [chunkDone])).messages =
        (handleSubmit sampleRuntime sampleChat
          (.response true [dataTag ++ payloadA])).messages ∧
      (handleSubmit sampleRuntime sampleChat (.response true [chunkDone])).messages =
        [userMessage "hi".toList, assistantMessage "A".toList] :=
  ⟨unparsable_record_aborts sampleRuntime sampleChat [chunkDone] [dataTag ++ payloadA]
      [dataTag ++ payloadA] [dataTag ++ payloadB] "[DONE]".toList
      (by decide) (by decide) (by decide),
    by decide⟩

/-- C10, an instance: one chunk with both records, or three chunks. -/
theorem chunking_irrelevant_witness :
    readLoop sampleRuntime (loopStart sampleTranscript) [chunkAB] =
      readLoop sampleRuntime (loopStart sampleTranscript)
        [dataTag ++ payloadA ++ "\n".toList, "\n".toList, dataTag ++ payloadB] :=
  chunking_irrelevant sampleRuntime (loopStart sampleTranscript) [chunkAB]
    [dataTag ++ payloadA ++ "\n".toList, "\n".toList, dataTag ++ payloadB] (by decide)

/-- C4, an instance: the code `throw new Error("boom")` gives `{"result":{"error":"boom"}}`. -/
theorem executeCode_runtime_fault_witness :
    executeCode sampleRuntime (.str "throw new Error(\"boom\")".toList) =
        .ok (.obj [("result".toList, .obj [("error".toList, .str "boom".toList)])]) ∧
      executeCode sampleRuntime (.str "throw new Error(\"boom\")".toList) ≠
        .ok (.obj [("error".toList, .str "boom".toList)]) ∧
      handleFunctionCall sampleRuntime (.str "executeCode".toList)
          (.obj [("code".toList, .str "throw new Error(\"boom\")".toList)]) =
        .ok (.str (sampleRuntime.jsonStringify
          (.obj [("result".toList, .obj [("error".toList, .str "boom".toList)])]))) :=
  executeCode_runtime_fault sampleRuntime "throw new Error(\"boom\")".toList
    (.obj [("message".toList, .str "boom".toList)]) (.str "boom".toList) rfl rfl

/-- C7, where the claim fails: the body of the html block of `fencedText` runs up to the
newline before the last three backticks, so it holds three backticks; the text up to the next
three backticks would be `a`. -/
theorem body_contains_backticks :
    (handleCodePreview initialPreview fencedText).codeFiles.html = "a```b".toList ∧
      (parseCode initialPreview fencedText).codeFiles.html = "a```b".toList ∧
      "```".toList <:+: (handleCodePreview initialPreview fencedText).codeFiles.html := by
  decide

/-- C7, an instance of the amended claim on `fencedText`. -/
theorem first_block_trimmed_witness :
    ∃ body, IsFirstBlock (fenceTags .html) fencedText body ∧
      (handleCodePreview initialPreview fencedText).codeFiles.field .html = trim body ∧
      (parseCode initialPreview fencedText).codeFiles.field .html = trim body ∧
      ¬ closeFence <:+: trim body ∧
      (∀ c, (trim body).head? = some c → isWhiteSpace c = false) ∧
      (∀ c, (trim body).getLast? = some c → isWhiteSpace c = false) :=
  first_block_trimmed initialPreview fencedText .html (by decide)

/-- C6, the failing input: a `FormattedMessage` that processed `fencedText` and then `hello`
still holds the html code of the earlier text, although `hello` has no html block;
`handleCodePreview` gives the empty string there. -/
theorem parseCode_keeps_bundle_witness :
    ((parseCode (parseCode initialPreview fencedText) "hello".toList).codeFiles.field .html =
          (parseCode initialPreview fencedText).codeFiles.field .html ∧
        (handleCodePreview (parseCode initialPreview fencedText) "hello".toList).codeFiles.field
          .html = []) ∧
      (parseCode (parseCode initialPreview fencedText) "hello".toList).codeFiles.html =
        "a```b".toList ∧
      ¬ FenceOccurs (fenceTags .html) "hello".toList :=
  ⟨parseCode_keeps_bundle (parseCode initialPreview fencedText) "hello".toList .html
      (fun h => absurd ((anyMatch_iff _).2 h) (by decide)),
    by decide, by decide⟩

/-- C9, the failing input: a `FormattedMessage` that processed `fencedText` and then `hello`
still has the flag on, although `hello` has no block; `handleCodePreview` turns it off
there. -/
theorem parseCode_keeps_flag_witness :
    ((parseCode (parseCode initialPreview fencedText) "hello".toList).showPreview =
          (parseCode initialPreview fencedText).showPreview ∧
        (handleCodePreview (parseCode initialPreview fencedText) "hello".toList).showPreview =
          false) ∧
      (parseCode (parseCode initialPreview fencedText) "hello".toList).showPreview = true ∧
      ¬ AnyFence "hello".toList :=
  ⟨parseCode_keeps_flag (parseCode initialPreview fencedText) "hello".toList
      (fun h => absurd ((anyMatch_iff _).2 h) (by decide)),
    by decide, fun h => absurd ((anyMatch_iff _).2 h) (by decide)⟩

end Chat
